import Mathlib

/-!
# Verification of the supnum_backend retrieval-and-context-assembly core

Shallow embedding of the Python source of `supnum_backend`:

* `app/utils/chunking.py` — `chunk_text`, `smart_chunk` (character windows with
  Python slice / `str.rfind` semantics, fueled loop for the `while`);
* `app/utils/embeddings.py` — `cosine_similarity` over exact reals;
* `app/services/retrieval.py` — `retrieve_relevant_chunks`,
  `deduplicate_chunks`, `format_context_for_llm`;
* `app/db/qdrant_client.py` — `search_vectors`;
* `app/services/query_handler.py` — `generate_answer_with_llm`,
  `handle_question`;
* `src/app/utils/embeddings.py` — the retry/backoff loop of `main_embeddings`.

Machine floats are modelled as exact rationals (scores) or reals (vectors);
wall-clock time and the external services are passed in as explicit inputs.
-/

namespace SupNum

/-! ## Python string primitives

`chunking.py` manipulates `str` offsets that can become negative
(`start = end - overlap`), so indices are embedded as `Int` and the helpers
below reproduce CPython's index adjustment for slices and `str.rfind`:
a negative index is shifted by the string length, then clamped to
`[0, len]`. -/

/-- CPython index adjustment for slice / `rfind` bounds. -/
def pyAdj (len : Nat) (i : Int) : Nat :=
  if i < 0 then (len + i).toNat else min i.toNat len

/-- Python slice `s[a:b]` (step 1). -/
def pySlice (s : List Char) (a b : Int) : List Char :=
  (s.take (pyAdj s.length b)).drop (pyAdj s.length a)

/-- Python whitespace (the characters removed by `str.strip()`). -/
def isPyWS (c : Char) : Bool :=
  c == ' ' || c == '\t' || c == '\n' || c == '\r' ||
  c == Char.ofNat 11 || c == Char.ofNat 12

/-- Python `str.strip()`. -/
def pyStrip (s : List Char) : List Char :=
  ((s.dropWhile isPyWS).reverse.dropWhile isPyWS).reverse

/-- Does `sub` occur in `s` starting at position `i`? -/
def matchesAt (s sub : List Char) (i : Nat) : Bool :=
  (s.drop i).take sub.length == sub

/-- Scan downward from position `i` to `lo` for an occurrence of `sub`. -/
def rfindFrom (s sub : List Char) (lo : Nat) : Nat → Option Nat
  | 0 => if lo = 0 ∧ matchesAt s sub 0 then some 0 else none
  | i + 1 =>
    if lo ≤ i + 1 ∧ matchesAt s sub (i + 1) then some (i + 1)
    else rfindFrom s sub lo i

/-- Python `s.rfind(sub, a, b)`: highest `i` with
`adj a ≤ i`, `i + |sub| ≤ adj b` and `sub` occurring at `i`; `-1` if none. -/
def pyRfind (s sub : List Char) (a b : Int) : Int :=
  let lo := pyAdj s.length a
  let hi := pyAdj s.length b
  if sub.length ≤ hi then
    match rfindFrom s sub lo (hi - sub.length) with
    | some i => (i : Int)
    | none => -1
  else -1

/-! ## `chunking.py` -/

/-- The boundary markers of `chunk_text`, in priority order. -/
def delimiters : List (List Char) :=
  [['.', ' '], ['!', ' '], ['?', ' '], ['\n', '\n'], ['\n']]

/-- The `for delimiter in [...]` loop of `chunk_text`: first delimiter with an
occurrence in `[start, end0)` yields `last_delimiter + len(delimiter)`. -/
def delimSearch (text : List Char) (start end0 : Int) :
    List (List Char) → Option Int
  | [] => none
  | d :: ds =>
    let r := pyRfind text d start end0
    if r ≠ -1 then some (r + (d.length : Int)) else delimSearch text start end0 ds

/-- The `end` offset computed by one iteration of `chunk_text`: the raw
window end `start + chunk_size`, adjusted backward to the highest boundary
marker (or, failing that, the last space) when the window ends before the
text does. -/
def chunkEnd (text : List Char) (chunk_size : Nat) (start : Int) : Int :=
  if start + (chunk_size : Int) < (text.length : Int) then
    match delimSearch text start (start + (chunk_size : Int)) delimiters with
    | some e => e
    | none =>
      if pyRfind text [' '] start (start + (chunk_size : Int)) ≠ -1 then
        pyRfind text [' '] start (start + (chunk_size : Int))
      else start + (chunk_size : Int)
  else start + (chunk_size : Int)

/-- One iteration of the `while start < text_length` loop of `chunk_text`:
returns the emitted chunk (if non-empty after stripping) and the next `start`. -/
def chunkStep (text : List Char) (chunk_size overlap : Nat) (start : Int) :
    Option (List Char) × Int :=
  ((if pyStrip (pySlice text start (chunkEnd text chunk_size start)) ≠ [] then
      some (pyStrip (pySlice text start (chunkEnd text chunk_size start)))
    else none),
   (if chunkEnd text chunk_size start < (text.length : Int) then
      chunkEnd text chunk_size start - (overlap : Int)
    else (text.length : Int)))

/-- The `while` loop of `chunk_text`, with explicit fuel: `none` means the
loop did not finish within `fuel` iterations. -/
def chunkTextLoop (text : List Char) (chunk_size overlap : Nat) :
    Nat → Int → Option (List (List Char))
  | 0, _ => none
  | fuel + 1, start =>
    if start < (text.length : Int) then
      match chunkTextLoop text chunk_size overlap fuel
          (chunkStep text chunk_size overlap start).2 with
      | none => none
      | some rest => some ((chunkStep text chunk_size overlap start).1.toList ++ rest)
    else some []

/-- `chunk_text(text, chunk_size, overlap)` from `app/utils/chunking.py`. -/
def chunk_text (text : List Char) (chunk_size overlap : Nat) (fuel : Nat) :
    Option (List (List Char)) :=
  if text = [] then some [] else chunkTextLoop text chunk_size overlap fuel 0

/-- Structural worker for `splitOnSep`; the fuel dominates the input length,
each step consumes at least one character. -/
def splitOnSepFuel (sep : List Char) : Nat → List Char → List (List Char)
  | 0, s => [s]
  | fuel + 1, s =>
    match s with
    | [] => [[]]
    | c :: rest =>
      if sep ≠ [] ∧ (s.take sep.length == sep) = true then
        [] :: splitOnSepFuel sep fuel (s.drop sep.length)
      else
        match splitOnSepFuel sep fuel rest with
        | [] => [[c]]
        | hd :: t => (c :: hd) :: t

/-- Python `text.split(sep)` for a non-empty separator: scan left to right,
cutting at each non-overlapping occurrence of `sep`. -/
def splitOnSep (sep : List Char) (s : List Char) : List (List Char) :=
  splitOnSepFuel sep s.length s

/-- The paragraph-packing loop of `smart_chunk`; state is
`(chunks, current_chunk)`. -/
def smartChunkFold (chunk_size overlap fuel : Nat) :
    List (List Char) → List (List Char) × List Char →
    Option (List (List Char) × List Char)
  | [], st => some st
  | para :: rest, (chunks, current) =>
    if current.length + para.length + 2 ≤ chunk_size then
      smartChunkFold chunk_size overlap fuel rest
        (chunks, if current ≠ [] then current ++ ['\n', '\n'] ++ para else para)
    else if chunk_size < para.length then
      match chunk_text para chunk_size overlap fuel with
      | none => none
      | some sub_chunks =>
        smartChunkFold chunk_size overlap fuel rest
          ((if current ≠ [] then chunks ++ [current] else chunks) ++
             sub_chunks.dropLast,
           (sub_chunks.getLast?).getD [])
    else
      smartChunkFold chunk_size overlap fuel rest
        ((if current ≠ [] then chunks ++ [current] else chunks), para)

/-- `smart_chunk(text, chunk_size, overlap)` from `app/utils/chunking.py`. -/
def smart_chunk (text : List Char) (chunk_size overlap : Nat) (fuel : Nat) :
    Option (List (List Char)) :=
  if text = [] then some [] else
  match smartChunkFold chunk_size overlap fuel
      (((splitOnSep ['\n', '\n'] text).map pyStrip).filter (fun p => p != []))
      ([], []) with
  | none => none
  | some (chunks, current) =>
    some (if current ≠ [] then chunks ++ [current] else chunks)

/-! ## `app/utils/embeddings.py` — `cosine_similarity`

Vectors are embedded as `List ℝ` (machine floats idealised as exact reals);
`np.dot` is the truncating pointwise product sum and `np.linalg.norm` is the
Euclidean norm. -/

/-- `np.dot(v1, v2)` for 1-d arrays. -/
def dot (a b : List ℝ) : ℝ := (List.zipWith (· * ·) a b).sum

/-- Sum of squared entries. -/
def sumSq (a : List ℝ) : ℝ := (a.map (fun x => x ^ 2)).sum

/-- `np.linalg.norm(v)`. -/
noncomputable def vnorm (a : List ℝ) : ℝ := Real.sqrt (sumSq a)

/-- `cosine_similarity(vec1, vec2)` from `app/utils/embeddings.py`. -/
noncomputable def cosine_similarity (vec1 vec2 : List ℝ) : ℝ :=
  let dot_product := dot vec1 vec2
  let norm_v1 := vnorm vec1
  let norm_v2 := vnorm vec2
  if norm_v1 = 0 ∨ norm_v2 = 0 then 0
  else dot_product / (norm_v1 * norm_v2)

/-! ## Data model for the retrieval core

`Document` / `Chunk` mirror the persisted records of `app/models/pg_models.py`
(only the fields the retrieval core reads); `Hit` is one search result of the
vector index gateway; similarity scores are exact rationals. -/

/-- The owning document of a chunk (as read by `format_context_for_llm`). -/
structure Document where
  id : Nat
  title : String
deriving DecidableEq, Repr

/-- A persisted chunk record. -/
structure Chunk where
  id : Nat
  document_id : Nat
  chunk_index : Nat
  chunk_text : String
  document : Option Document
deriving DecidableEq, Repr

/-- One `{id, score}` search result returned by the vector index gateway. -/
structure Hit where
  id : Nat
  score : ℚ
deriving DecidableEq, Repr

/-- An exception raised by the vector index gateway. -/
inductive GwErr where
  | exc (msg : String)
deriving DecidableEq, Repr

/-! ## `app/db/qdrant_client.py` — `search_vectors`

The gateway call is a black box, embedded as its outcome: either a list of
hits or a raised exception.  `search_vectors` wraps the call in
`try/except`, returning `[]` on any exception. -/

/-- `search_vectors(query_vector, limit, score_threshold)`: the result of the
`qdrant_client.search` call is the `gw` input. -/
def search_vectors (gw : Except GwErr (List Hit)) : List Hit :=
  match gw with
  | .ok results => results
  | .error _ => []

/-! ## `app/services/retrieval.py` -/

/-- Python dict comprehension `{chunk.id: chunk for chunk in chunks}` followed
by `.get(id)` — the *last* chunk with a given id wins. -/
def chunkMapGet (chunks : List Chunk) (i : Nat) : Option Chunk :=
  (chunks.filter (fun c => c.id == i)).getLast?

/-- `retrieve_relevant_chunks(db, query, top_k, score_threshold)`.
The query embedding and the gateway search are black boxes; `gw` is the
outcome of the `search_vectors` call for this query and `db` the list of
persisted chunk rows (`db.query(Chunk)`). -/
def retrieve_relevant_chunks (db : List Chunk) (gw : Except GwErr (List Hit)) :
    List (Chunk × ℚ) :=
  let results := search_vectors gw
  if results = [] then []
  else
    let chunk_ids := results.map (fun r => r.id)
    let chunks := db.filter (fun c => c.id ∈ chunk_ids)
    results.filterMap (fun r => (chunkMapGet chunks r.id).map (fun c => (c, r.score)))

/-- The `(chunk.document_id, chunk.chunk_index)` deduplication key. -/
def keyOf (p : Chunk × ℚ) : Nat × Nat := (p.1.document_id, p.1.chunk_index)

/-- The `for chunk, score in chunks_with_scores` loop of `deduplicate_chunks`
with the `seen` set as an explicit accumulator. -/
def dedupAux : List (Chunk × ℚ) → List (Nat × Nat) → List (Chunk × ℚ)
  | [], _ => []
  | p :: rest, seen =>
    if keyOf p ∈ seen then dedupAux rest seen
    else p :: dedupAux rest (keyOf p :: seen)

/-- `deduplicate_chunks(chunks_with_scores)` from `app/services/retrieval.py`. -/
def deduplicate_chunks (chunks_with_scores : List (Chunk × ℚ)) :
    List (Chunk × ℚ) :=
  if chunks_with_scores = [] then [] else dedupAux chunks_with_scores []

/-- Python `f"{score:.2f}"` on an exact rational score. -/
def fmtScore2 (q : ℚ) : String :=
  let c : Int := round (q * 100)
  let m := c.natAbs
  (if c < 0 then "-" else "") ++ toString (m / 100) ++ "." ++
    (if m % 100 < 10 then "0" else "") ++ toString (m % 100)

/-- The per-entry lines of `format_context_for_llm` (1-based rank). -/
def contextEntry (i : Nat) (p : Chunk × ℚ) : List String :=
  let doc_info :=
    match p.1.document with
    | some d => " [Source: " ++ d.title ++ "]"
    | none => ""
  ["\n--- Extrait " ++ toString i ++ " (Pertinence: " ++ fmtScore2 p.2 ++ ")" ++
     doc_info ++ " ---",
   p.1.chunk_text]

/-- `format_context_for_llm(chunks_with_scores)` from
`app/services/retrieval.py`. -/
def format_context_for_llm (chunks_with_scores : List (Chunk × ℚ)) : String :=
  if chunks_with_scores = [] then ""
  else
    let context_parts :=
      ["Contexte pertinent trouvé dans la base de connaissances:\n"] ++
      (chunks_with_scores.enum.flatMap (fun ip => contextEntry (ip.1 + 1) ip.2)) ++
      ["\n---\n"]
    String.intercalate "\n" context_parts

/-! ## `app/services/query_handler.py`

The OpenRouter completion call is a black box: `svc k p` is the outcome of
the `k`-th POST of this request with prompt pair `p`.  A raised
`requests.exceptions.RequestException` is embedded as `LLMErr`; the HTTP 429
status (`raise_for_status` on a throttled response) is `rateLimited`. -/

/-- The (system, user) message pair sent to the completion service. -/
structure Prompt where
  system : String
  user : String
deriving DecidableEq, Repr

/-- A `requests.exceptions.RequestException` from the completion call. -/
inductive LLMErr where
  | rateLimited
  | connError
  | httpError (code : Nat)
deriving DecidableEq, Repr

/-- `str(e)` for an embedded request exception. -/
def errStr : LLMErr → String
  | .rateLimited => "429 Client Error: Too Many Requests"
  | .connError => "Connection error"
  | .httpError code => "HTTP error " ++ toString code

/-- A completion service: outcome of each attempt, given its prompt. -/
def LLMSvc : Type := Nat → Prompt → Except LLMErr (String × Nat)

/-- The prompt construction of `generate_answer_with_llm`
(`if use_context and context:`). -/
def build_prompt (question context : String) (use_context : Bool) : Prompt :=
  if use_context ∧ context ≠ "" then
    { system := "Tu es un assistant intelligent pour SupNum. \nTu réponds aux questions en te basant sur le contexte fourni.\nSi l'information n'est pas dans le contexte, dis-le clairement.\nSois précis, concis et utile. Réponds en français."
      user := context ++ "\n\nQuestion: " ++ question ++
        "\n\nRéponds à la question en te basant sur le contexte ci-dessus. Si l'information n'est pas disponible dans le contexte, indique-le clairement." }
  else
    { system := "Tu es un assistant intelligent pour SupNum.\nRéponds aux questions de manière utile et précise. Réponds en français."
      user := question }

/-- The result dictionary of `generate_answer_with_llm`. -/
structure LLMResult where
  answer : String
  model : String
  tokens_used : Nat
  success : Bool
deriving DecidableEq, Repr

/-- `generate_answer_with_llm(question, context, model, use_context)` from
`app/services/query_handler.py`: a single completion call, any request
exception caught and turned into a failure result. -/
def generate_answer_with_llm (question context model : String)
    (use_context : Bool) (svc : LLMSvc) : LLMResult :=
  match svc 0 (build_prompt question context use_context) with
  | .ok (answer, tokens) =>
    { answer := answer, model := model, tokens_used := tokens, success := true }
  | .error e =>
    { answer := "Désolé, je n'ai pas pu générer une réponse. Erreur: " ++ errStr e
      model := model, tokens_used := 0, success := false }

/-- The response dictionary of `handle_question` (the fields the caller sees). -/
structure HandleResponse where
  question : String
  answer : String
  chunks_used : List (Chunk × ℚ)
  response_time : ℚ
  model_used : String
  chunks_retrieved : Nat
  avg_similarity : ℚ
  tokens_used : Nat
deriving DecidableEq, Repr

/-- `handle_question(db, question, top_k, score_threshold, use_context, model)`
from `app/services/query_handler.py`.  `gw` is the gateway outcome for this
question's embedding, `elapsed` the measured wall-clock time. -/
def handle_question (db : List Chunk) (gw : Except GwErr (List Hit))
    (question : String) (use_context : Bool) (model : String)
    (svc : LLMSvc) (elapsed : ℚ) : HandleResponse :=
  let chunks_with_scores := retrieve_relevant_chunks db gw
  let chunks_with_scores := deduplicate_chunks chunks_with_scores
  let context := if use_context then format_context_for_llm chunks_with_scores else ""
  let llm_result := generate_answer_with_llm question context model use_context svc
  let avg_score : ℚ :=
    if chunks_with_scores ≠ [] then
      (chunks_with_scores.map (fun p => p.2)).sum / (chunks_with_scores.length : ℚ)
    else 0
  { question := question
    answer := llm_result.answer
    chunks_used := chunks_with_scores
    response_time := elapsed
    model_used := model
    chunks_retrieved := chunks_with_scores.length
    avg_similarity := avg_score
    tokens_used := llm_result.tokens_used }

/-! ## `src/app/utils/embeddings.py` — the retry loop of `main_embeddings`

The only exponential-backoff retry in the repository: the inner
`while not batch_processed and current_retry < max_retries` loop around
`get_mistral_embeddings`, retrying solely on HTTP 429. -/

/-- Outcome of one `get_mistral_embeddings` call. -/
inductive EmbedErr where
  | tooManyRequests
  | httpOther (code : Nat)
  | connErr
deriving DecidableEq, Repr

/-- Result of processing one batch in `main_embeddings`: either the batch is
processed (with the list of back-off delays slept, in order), or the whole
run is aborted (`return`). -/
inductive BatchResult (E : Type) where
  | success (vectors : E) (delays : List Nat)
  | abortRate (delays : List Nat)
  | abortHttp (code : Nat) (delays : List Nat)
  | abortConn (delays : List Nat)
  | noAttempt
deriving DecidableEq, Repr

/-- The retry loop of `main_embeddings`: `svc k` is the outcome of the call at
`current_retry = k`; `delay = initial_delay * 2 ** (current_retry - 1)` and the
sleep happens only while `current_retry < max_retries`. -/
def main_embeddings_retry {E : Type} (svc : Nat → Except EmbedErr E)
    (max_retries initial_delay : Nat) (current_retry : Nat) (delays : List Nat) :
    BatchResult E :=
  if h : current_retry < max_retries then
    match svc current_retry with
    | .ok v => .success v delays
    | .error .tooManyRequests =>
      let next_retry := current_retry + 1
      let delay := initial_delay * 2 ^ (next_retry - 1)
      if next_retry < max_retries then
        main_embeddings_retry svc max_retries initial_delay next_retry
          (delays ++ [delay])
      else .abortRate delays
    | .error (.httpOther code) => .abortHttp code delays
    | .error .connErr => .abortConn delays
  else .noAttempt
termination_by max_retries - current_retry
decreasing_by omega

/-! ## Concrete external services used in the theorems -/

/-- A completion service that is throttled on its first 4 calls and succeeds
on the 5th. -/
def svcThrottledThenOk : LLMSvc := fun k _ =>
  if k < 4 then .error .rateLimited
  else .ok ("Les objectifs sont décrits dans le contexte.", 42)

/-- An embedding service throttled on attempts 0–3, succeeding on attempt 4. -/
def svcEmbedThrottle4 : Nat → Except EmbedErr Unit := fun k =>
  if k < 4 then .error .tooManyRequests else .ok ()

/-- An embedding service that is always throttled. -/
def svcEmbedAlways429 : Nat → Except EmbedErr Unit := fun _ =>
  .error .tooManyRequests

/-- A completion service whose first call raises a connection error. -/
def svcConnErr : LLMSvc := fun _ _ => .error .connError

/-- A completion service that always answers successfully. -/
def svcOkSimple : LLMSvc := fun _ _ => .ok ("Je n'ai pas trouvé cette information dans le contexte.", 7)

/-! ## C1 — retry with exponential backoff on "too many requests" -/

/-- One unfolding of the `main_embeddings` retry loop while attempts remain. -/
lemma main_embeddings_retry_step {E : Type} (svc : Nat → Except EmbedErr E)
    (max_retries initial_delay current_retry : Nat) (delays : List Nat)
    (h : current_retry < max_retries) :
    main_embeddings_retry svc max_retries initial_delay current_retry delays =
      match svc current_retry with
      | .ok v => .success v delays
      | .error .tooManyRequests =>
        if current_retry + 1 < max_retries then
          main_embeddings_retry svc max_retries initial_delay (current_retry + 1)
            (delays ++ [initial_delay * 2 ^ current_retry])
        else .abortRate delays
      | .error (.httpOther code) => .abortHttp code delays
      | .error .connErr => .abortConn delays := by
  rw [main_embeddings_retry.eq_def]
  simp [h]

/-- C1, counterexample: the claim says that with a completion service
throttled 4 times and succeeding on the 5th attempt, the answer operation
returns a successful result.  In the code `generate_answer_with_llm` makes a
single completion call with no retry loop, so the first throttle already
yields a failure result. -/
theorem generate_answer_not_retried_counterexample :
    (generate_answer_with_llm "Quels sont les objectifs ?" ""
      "meta-llama/llama-3.1-8b-instruct:free" true svcThrottledThenOk).success
      = false := rfl

/-- C1, amended: the exponential backoff on HTTP 429 lives in the batch
embedding pipeline (`main_embeddings` in `src/app/utils/embeddings.py`), not
in the answer path.  With base delay `d` and the code's `max_retries = 5`, a
service throttled 4 times then succeeding is retried with delays
`d, 2d, 4d, 8d` and succeeds; a service throttled 5 times aborts the run
after the maximum attempt count without a further sleep; and the completion
call of the answer path performs a single attempt, failing on the first
throttle. -/
theorem main_embeddings_retry_backoff (d : Nat) :
    main_embeddings_retry svcEmbedThrottle4 5 d 0 [] =
      .success () [d, d * 2, d * 4, d * 8] ∧
    main_embeddings_retry svcEmbedAlways429 5 d 0 [] =
      .abortRate [d, d * 2, d * 4, d * 8] ∧
    (generate_answer_with_llm "Quels sont les objectifs ?" ""
      "meta-llama/llama-3.1-8b-instruct:free" true svcThrottledThenOk).success
      = false := by
  refine ⟨?_, ?_, rfl⟩ <;>
    · rw [main_embeddings_retry_step _ _ _ _ _ (by norm_num),
        main_embeddings_retry_step _ _ _ _ _ (by norm_num),
        main_embeddings_retry_step _ _ _ _ _ (by norm_num),
        main_embeddings_retry_step _ _ _ _ _ (by norm_num),
        main_embeddings_retry_step _ _ _ _ _ (by norm_num)]
      norm_num [svcEmbedThrottle4, svcEmbedAlways429]

/-! ## C3 — gateway errors and the retrieval core -/

/-- C3, counterexample: the claim says a failing gateway search is surfaced
to the caller.  In the code `search_vectors` catches every exception and
returns `[]`, so `retrieve_relevant_chunks` returns the ordinary empty
result, indistinguishable from a gateway that genuinely returned no hits. -/
theorem retrieve_swallows_gateway_error_counterexample :
    retrieve_relevant_chunks [] (.error (.exc "connection refused")) = [] ∧
    retrieve_relevant_chunks [] (.error (.exc "connection refused")) =
      retrieve_relevant_chunks [] (.ok []) := ⟨rfl, rfl⟩

/-- C3, amended: when the gateway search raises, `search_vectors` catches the
exception and returns the empty list, so `retrieve_relevant_chunks` returns
`[]` without surfacing any error — exactly the same value as for a gateway
that returns no hits. -/
theorem retrieve_gateway_error_amended (db : List Chunk) (e : GwErr) :
    search_vectors (.error e) = [] ∧
    retrieve_relevant_chunks db (.error e) = [] ∧
    retrieve_relevant_chunks db (.error e) = retrieve_relevant_chunks db (.ok []) :=
  ⟨rfl, rfl, rfl⟩

/-! ## C5 — non-throttle completion failures abort without retry -/

/-- C5: for any completion-service failure (in particular any error class
other than "too many requests"), `generate_answer_with_llm` performs no
retry — its result only depends on the first call — and returns a failure
result carrying the error message instead of a successful answer. -/
theorem generate_answer_aborts_on_error (question context model : String)
    (use_context : Bool) (svc : LLMSvc) (e : LLMErr)
    (hne : e ≠ .rateLimited)
    (hsvc : svc 0 (build_prompt question context use_context) = .error e) :
    (generate_answer_with_llm question context model use_context svc).success = false ∧
    (generate_answer_with_llm question context model use_context svc).answer =
      "Désolé, je n'ai pas pu générer une réponse. Erreur: " ++ errStr e ∧
    ∀ svc₂ : LLMSvc, (∀ p, svc₂ 0 p = svc 0 p) →
      generate_answer_with_llm question context model use_context svc₂ =
        generate_answer_with_llm question context model use_context svc := by
  unfold generate_answer_with_llm
  rw [hsvc]
  refine ⟨rfl, rfl, fun svc₂ h2 => ?_⟩
  rw [h2, hsvc]

/-- Witness for C5 at a concrete connection error. -/
theorem generate_answer_aborts_on_error_witness :
    (generate_answer_with_llm "Bonjour" "" "meta-llama/llama-3.1-8b-instruct:free"
      true svcConnErr).success = false :=
  (generate_answer_aborts_on_error "Bonjour" ""
    "meta-llama/llama-3.1-8b-instruct:free" true svcConnErr .connError
    (by decide) rfl).1

/-! ## C2 — termination of the chunking loop

On `"a\nb\ncdefgh"` with `chunk_size = 5`, `overlap = 2` the window update
`start = end - overlap` reproduces the state `start = 2` forever: the
delimiter search sets `end = 4` (`'\n'` at index 3) and `4 - 2 = 2`.  The
`while` loop of `chunk_text` therefore never terminates, and `smart_chunk`
(whose single oversized paragraph falls back to `chunk_text`) diverges too. -/

/-- The non-terminating input of C2. -/
def c2text : List Char := "a\nb\ncdefgh".toList

lemma c2_step0 : chunkStep c2text 5 2 0 = (some ['a', '\n', 'b'], 2) := by decide

lemma c2_step2 : chunkStep c2text 5 2 2 = (some ['b'], 2) := by decide

lemma c2_loop_stuck (fuel : Nat) : chunkTextLoop c2text 5 2 fuel 2 = none := by
  induction fuel with
  | zero => rfl
  | succ n ih =>
    rw [chunkTextLoop]
    rw [if_pos (by decide)]
    simp only [c2_step2, ih]

/-- C2: the chunking loop does not always make progress — on the input
`"a\nb\ncdefgh"` with `chunk_size = 5`, `overlap = 2` both `chunk_text` and
`smart_chunk` loop forever (the fueled embedding returns `none` for every
fuel), refuting termination for all valid `(target_size, overlap)`. -/
theorem chunk_text_nontermination :
    ∀ fuel, chunk_text c2text 5 2 fuel = none ∧ smart_chunk c2text 5 2 fuel = none := by
  intro fuel
  have hloop0 : chunkTextLoop c2text 5 2 fuel 0 = none := by
    cases fuel with
    | zero => rfl
    | succ n =>
      rw [chunkTextLoop]
      rw [if_pos (by decide)]
      simp only [c2_step0, c2_loop_stuck n]
  constructor
  · rw [chunk_text, if_neg (by decide)]
    exact hloop0
  · have hct : chunk_text c2text 5 2 fuel = none := by
      rw [chunk_text, if_neg (by decide)]; exact hloop0
    have hfold : smartChunkFold 5 2 fuel [c2text] ([], []) =
        (match chunk_text c2text 5 2 fuel with
         | none => none
         | some sub_chunks =>
           smartChunkFold 5 2 fuel []
             (([] : List (List Char)) ++ sub_chunks.dropLast,
              (sub_chunks.getLast?).getD [])) := rfl
    rw [smart_chunk, if_neg (by decide)]
    have hparas : ((splitOnSep ['\n', '\n'] c2text).map pyStrip).filter
        (fun p => p != []) = [c2text] := by decide
    simp only [hparas, hfold, hct]

/-! ## C4 — no non-whitespace character dropped

The same backward window update drops characters on inputs where it
terminates: on `"a bcdefghijklmnopqrs"` with `chunk_size = 10`,
`overlap = 2` the first window is cut at the only space (index 1), the next
start `1 - 2 = -1` denotes position 19 under Python slicing, that window is
empty, and scanning resumes at position 7 — the non-whitespace characters
`bcdef` (positions 2–6) appear in no chunk. -/

/-- The character-dropping input of C4. -/
def c4text : List Char := "a bcdefghijklmnopqrs".toList

/-- C4, counterexample: `smart_chunk` on `"a bcdefghijklmnopqrs"` with
`(size, overlap) = (10, 2)` terminates with chunks
`["a", "ghijklmnop", "opqrs"]`, and the non-whitespace character `'b'` of the
input occurs in no output chunk — the joined chunks do not reproduce the
input up to whitespace. -/
theorem smart_chunk_drops_characters :
    smart_chunk c4text 10 2 20 =
      some ["a".toList, "ghijklmnop".toList, "opqrs".toList] ∧
    'b' ∈ c4text ∧ isPyWS 'b' = false ∧
    ∀ c ∈ ["a".toList, "ghijklmnop".toList, "opqrs".toList], 'b' ∉ c := by
  refine ⟨by decide, by decide, by decide, by decide⟩

/-! ## C8 — deduplication is idempotent, first-occurrence, order-preserving -/

lemma dedupAux_sublist (l : List (Chunk × ℚ)) :
    ∀ seen, List.Sublist (dedupAux l seen) l := by
  induction l with
  | nil => intro seen; simp [dedupAux]
  | cons p rest ih =>
    intro seen
    rw [dedupAux]
    split
    · exact (ih seen).cons p
    · exact (ih (keyOf p :: seen)).cons₂ p

lemma dedupAux_not_seen (l : List (Chunk × ℚ)) :
    ∀ seen p, p ∈ dedupAux l seen → keyOf p ∉ seen := by
  induction l with
  | nil => intro seen p hp; simp [dedupAux] at hp
  | cons q rest ih =>
    intro seen p hp
    rw [dedupAux] at hp
    by_cases hk : keyOf q ∈ seen
    · rw [if_pos hk] at hp
      exact ih seen p hp
    · rw [if_neg hk] at hp
      rcases List.mem_cons.mp hp with h | h
      · rw [h]; exact hk
      · have := ih (keyOf q :: seen) p h
        exact fun hmem => this (List.mem_cons_of_mem _ hmem)

lemma dedupAux_first_occurrence (l : List (Chunk × ℚ)) :
    ∀ seen p, p ∈ dedupAux l seen →
      l.find? (fun q => keyOf q == keyOf p) = some p := by
  induction l with
  | nil => intro seen p hp; simp [dedupAux] at hp
  | cons q rest ih =>
    intro seen p hp
    rw [dedupAux] at hp
    by_cases hk : keyOf q ∈ seen
    · rw [if_pos hk] at hp
      have hne : keyOf q ≠ keyOf p := by
        intro he
        exact dedupAux_not_seen rest seen p hp (he ▸ hk)
      rw [List.find?_cons_of_neg _ (by simpa using hne)]
      exact ih seen p hp
    · rw [if_neg hk] at hp
      rcases List.mem_cons.mp hp with h | h
      · rw [h]
        rw [List.find?_cons_of_pos _ (by simp)]
      · have hns := dedupAux_not_seen rest (keyOf q :: seen) p h
        have hne : keyOf q ≠ keyOf p := fun he => hns (he ▸ List.mem_cons_self _ _)
        rw [List.find?_cons_of_neg _ (by simpa using hne)]
        exact ih (keyOf q :: seen) p h

lemma dedupAux_pairwise (l : List (Chunk × ℚ)) :
    ∀ seen, (dedupAux l seen).Pairwise (fun p q => keyOf p ≠ keyOf q) := by
  induction l with
  | nil => intro seen; simp [dedupAux]
  | cons q rest ih =>
    intro seen
    rw [dedupAux]
    split
    · exact ih seen
    · refine List.Pairwise.cons ?_ (ih (keyOf q :: seen))
      intro r hr he
      exact dedupAux_not_seen rest (keyOf q :: seen) r hr (he ▸ List.mem_cons_self _ _)

lemma dedupAux_fixed (l : List (Chunk × ℚ)) :
    ∀ seen, l.Pairwise (fun p q => keyOf p ≠ keyOf q) →
      (∀ p ∈ l, keyOf p ∉ seen) → dedupAux l seen = l := by
  induction l with
  | nil => intro seen _ _; rfl
  | cons q rest ih =>
    intro seen hpw hni
    rw [dedupAux, if_neg (hni q (List.mem_cons_self _ _))]
    rw [ih (keyOf q :: seen) (List.Pairwise.of_cons hpw)]
    intro p hp
    rcases List.pairwise_cons.mp hpw with ⟨hq, _⟩
    intro hmem
    rcases List.mem_cons.mp hmem with h | h
    · exact hq p hp h.symm
    · exact hni p (List.mem_cons_of_mem _ hp) h

lemma dedupAux_covers (l : List (Chunk × ℚ)) :
    ∀ seen p, p ∈ l → keyOf p ∉ seen →
      ∃ q ∈ dedupAux l seen, keyOf q = keyOf p := by
  induction l with
  | nil => intro seen p hp; simp at hp
  | cons q rest ih =>
    intro seen p hp hns
    rw [dedupAux]
    by_cases hk : keyOf q ∈ seen
    · rw [if_pos hk]
      rcases List.mem_cons.mp hp with h | h
      · exact absurd (h ▸ hns) (fun hf => hf hk)
      · exact ih seen p h hns
    · rw [if_neg hk]
      rcases List.mem_cons.mp hp with h | h
      · exact ⟨q, List.mem_cons_self _ _, by rw [h]⟩
      · by_cases he : keyOf p = keyOf q
        · exact ⟨q, List.mem_cons_self _ _, he.symm⟩
        · have : keyOf p ∉ keyOf q :: seen := by
            intro hmem
            rcases List.mem_cons.mp hmem with hh | hh
            · exact he hh
            · exact hns hh
          rcases ih (keyOf q :: seen) p h this with ⟨r, hr, hkr⟩
          exact ⟨r, List.mem_cons_of_mem _ hr, hkr⟩

/-- C8: `deduplicate_chunks` is idempotent; its output is a sublist of its
input (relative order of kept entries preserved), the kept entries have
pairwise distinct `(document_id, chunk_index)` keys, each kept entry is the
*first* occurrence of its key in the input, and every key of the input is
represented in the output. -/
theorem deduplicate_chunks_idempotent_first_stable (l : List (Chunk × ℚ)) :
    deduplicate_chunks (deduplicate_chunks l) = deduplicate_chunks l ∧
    List.Sublist (deduplicate_chunks l) l ∧
    (deduplicate_chunks l).Pairwise (fun p q => keyOf p ≠ keyOf q) ∧
    (∀ p ∈ deduplicate_chunks l,
      l.find? (fun q => keyOf q == keyOf p) = some p) ∧
    (∀ p ∈ l, ∃ q ∈ deduplicate_chunks l, keyOf q = keyOf p) := by
  by_cases hl : l = []
  · subst hl
    refine ⟨rfl, by simp [deduplicate_chunks], by simp [deduplicate_chunks], ?_, ?_⟩
    · intro p hp; simp [deduplicate_chunks] at hp
    · intro p hp; simp at hp
  · have hdef : deduplicate_chunks l = dedupAux l [] := by
      rw [deduplicate_chunks, if_neg hl]
    refine ⟨?_, ?_, ?_, ?_, ?_⟩
    · by_cases hd : deduplicate_chunks l = []
      · rw [hd]; rfl
      · rw [deduplicate_chunks, if_neg hd, hdef]
        exact dedupAux_fixed _ [] (hdef ▸ dedupAux_pairwise l []) (by simp)
    · rw [hdef]; exact dedupAux_sublist l []
    · rw [hdef]; exact dedupAux_pairwise l []
    · rw [hdef]; exact fun p hp => dedupAux_first_occurrence l [] p hp
    · rw [hdef]; exact fun p hp => dedupAux_covers l [] p hp (by simp)

/-! ## C6 — retrieve preserves the gateway's descending order and threshold -/

/-- Mapping the kept score out of a `filterMap` that preserves each hit's
score yields a sublist of the hit scores. -/
lemma filterMap_scores_sublist (g : Hit → Option (Chunk × ℚ))
    (hg : ∀ r p, g r = some p → p.2 = r.score) :
    ∀ l : List Hit,
      List.Sublist ((l.filterMap g).map (fun p => p.2))
        (l.map (fun h => h.score)) := by
  intro l
  induction l with
  | nil => simp
  | cons r rest ih =>
    rw [List.filterMap_cons]
    cases hgr : g r with
    | none =>
      rw [List.map_cons]
      exact ih.cons r.score
    | some p =>
      rw [List.map_cons, List.map_cons, hg r p hgr]
      exact ih.cons₂ r.score

/-- C6: under the gateway contract (hits sorted by score descending, every
score at least the threshold), `retrieve_relevant_chunks` returns pairs whose
scores are sorted descending, all at least the threshold, and form a sublist
of the gateway's score sequence (the gateway order over resolvable ids is
preserved). -/
theorem retrieve_sorted_and_thresholded (db : List Chunk) (hits : List Hit)
    (threshold : ℚ)
    (hsorted : (hits.map (fun h => h.score)).Pairwise (· ≥ ·))
    (hth : ∀ h ∈ hits, threshold ≤ h.score) :
    ((retrieve_relevant_chunks db (.ok hits)).map (fun p => p.2)).Pairwise (· ≥ ·) ∧
    (∀ p ∈ retrieve_relevant_chunks db (.ok hits), threshold ≤ p.2) ∧
    List.Sublist ((retrieve_relevant_chunks db (.ok hits)).map (fun p => p.2))
      (hits.map (fun h => h.score)) := by
  by_cases hhits : hits = []
  · subst hhits
    refine ⟨by simp [retrieve_relevant_chunks, search_vectors], ?_, by simp [retrieve_relevant_chunks, search_vectors]⟩
    intro p hp
    simp [retrieve_relevant_chunks, search_vectors] at hp
  · have hres : retrieve_relevant_chunks db (.ok hits) =
        hits.filterMap (fun r =>
          (chunkMapGet (db.filter (fun c => c.id ∈ hits.map (fun r => r.id))) r.id).map
            (fun c => (c, r.score))) := by
      simp only [retrieve_relevant_chunks, search_vectors]
      rw [if_neg hhits]
    have hg : ∀ (r : Hit) (p : Chunk × ℚ),
        (chunkMapGet (db.filter (fun c => c.id ∈ hits.map (fun h0 : Hit => h0.id))) r.id).map
          (fun c => (c, r.score)) = some p → p.2 = r.score := by
      intro r p hp
      rcases Option.map_eq_some'.mp hp with ⟨c, _, hc⟩
      rw [← hc]
    have hsub := filterMap_scores_sublist _ hg hits
    rw [hres]
    refine ⟨hsorted.sublist hsub, ?_, hsub⟩
    intro p hp
    rcases List.mem_filterMap.mp hp with ⟨r, hr, hpr⟩
    rw [hg r p hpr]
    exact hth r hr

/-- Example knowledge base for the C6 witness. -/
def dbExample : List Chunk :=
  [⟨1, 1, 0, "alpha", none⟩, ⟨2, 1, 1, "beta", none⟩]

/-- Example gateway hits for the C6 witness (id 3 is unresolved drift). -/
def hitsExample : List Hit := [⟨1, 9⟩, ⟨3, 7⟩]

/-- Witness for C6 at a concrete database and hit list. -/
theorem retrieve_sorted_and_thresholded_witness :
    ((retrieve_relevant_chunks dbExample (.ok hitsExample)).map (fun p => p.2)).Pairwise (· ≥ ·) ∧
    (∀ p ∈ retrieve_relevant_chunks dbExample (.ok hitsExample), (5:ℚ) ≤ p.2) ∧
    List.Sublist ((retrieve_relevant_chunks dbExample (.ok hitsExample)).map (fun p => p.2))
      (hitsExample.map (fun h => h.score)) :=
  retrieve_sorted_and_thresholded dbExample hitsExample 5
    (by decide) (by decide)

/-! ## C7 — empty retrieval still reaches the completion service -/

/-- C7: with `use_context = true` and a retrieval that returns no chunks,
`handle_question` still calls the completion service — with the empty
context, hence the no-context prompt whose user message is the raw
question — and its response has `chunks_retrieved = 0` and
`avg_similarity = 0`; in general `avg_similarity` is the arithmetic mean of
the post-deduplication scores, `0` when that set is empty. -/
theorem handle_question_empty_retrieval (db : List Chunk)
    (gw : Except GwErr (List Hit)) (question model : String) (svc : LLMSvc)
    (elapsed : ℚ) (a : String) (t : Nat)
    (hretr : retrieve_relevant_chunks db gw = [])
    (hsvc : svc 0 (build_prompt question "" true) = .ok (a, t)) :
    format_context_for_llm [] = "" ∧
    (handle_question db gw question true model svc elapsed).answer = a ∧
    (handle_question db gw question true model svc elapsed).chunks_retrieved = 0 ∧
    (handle_question db gw question true model svc elapsed).avg_similarity = 0 ∧
    ∀ (db₂ : List Chunk) (gw₂ : Except GwErr (List Hit)) (q₂ : String)
      (uc₂ : Bool) (m₂ : String) (svc₂ : LLMSvc) (el₂ : ℚ),
      (handle_question db₂ gw₂ q₂ uc₂ m₂ svc₂ el₂).avg_similarity =
        (if deduplicate_chunks (retrieve_relevant_chunks db₂ gw₂) = [] then 0
         else ((deduplicate_chunks (retrieve_relevant_chunks db₂ gw₂)).map
             (fun p => p.2)).sum /
           ((deduplicate_chunks (retrieve_relevant_chunks db₂ gw₂)).length : ℚ)) := by
  have hd : deduplicate_chunks (retrieve_relevant_chunks db gw) = [] := by
    rw [hretr]; rfl
  have hfmt : format_context_for_llm ([] : List (Chunk × ℚ)) = "" := rfl
  refine ⟨rfl, ?_, ?_, ?_, ?_⟩
  · simp only [handle_question, hd, hfmt, if_true]
    simp only [generate_answer_with_llm, hsvc]
  · simp only [handle_question, hd]
    rfl
  · simp only [handle_question, hd]
    rfl
  · intro db₂ gw₂ q₂ uc₂ m₂ svc₂ el₂
    by_cases h2 : deduplicate_chunks (retrieve_relevant_chunks db₂ gw₂) = []
    · simp only [handle_question, h2]
      rfl
    · simp only [handle_question]
      rw [if_pos h2, if_neg h2]

/-- Witness for C7 against an empty knowledge base. -/
theorem handle_question_empty_retrieval_witness :
    format_context_for_llm [] = "" ∧
    (handle_question [] (.ok []) "Quels sont les objectifs ?" true
      "meta-llama/llama-3.1-8b-instruct:free" svcOkSimple 1).answer =
      "Je n'ai pas trouvé cette information dans le contexte." ∧
    (handle_question [] (.ok []) "Quels sont les objectifs ?" true
      "meta-llama/llama-3.1-8b-instruct:free" svcOkSimple 1).chunks_retrieved = 0 ∧
    (handle_question [] (.ok []) "Quels sont les objectifs ?" true
      "meta-llama/llama-3.1-8b-instruct:free" svcOkSimple 1).avg_similarity = 0 ∧
    ∀ (db₂ : List Chunk) (gw₂ : Except GwErr (List Hit)) (q₂ : String)
      (uc₂ : Bool) (m₂ : String) (svc₂ : LLMSvc) (el₂ : ℚ),
      (handle_question db₂ gw₂ q₂ uc₂ m₂ svc₂ el₂).avg_similarity =
        (if deduplicate_chunks (retrieve_relevant_chunks db₂ gw₂) = [] then 0
         else ((deduplicate_chunks (retrieve_relevant_chunks db₂ gw₂)).map
             (fun p => p.2)).sum /
           ((deduplicate_chunks (retrieve_relevant_chunks db₂ gw₂)).length : ℚ)) :=
  handle_question_empty_retrieval [] (.ok []) "Quels sont les objectifs ?"
    "meta-llama/llama-3.1-8b-instruct:free" svcOkSimple 1
    "Je n'ai pas trouvé cette information dans le contexte." 7 rfl rfl

/-! ## C9 — cosine similarity -/

lemma sumSq_nonneg (a : List ℝ) : 0 ≤ sumSq a := by
  refine List.sum_nonneg ?_
  intro x hx
  rcases List.mem_map.mp hx with ⟨y, _, rfl⟩
  positivity

lemma sumSq_cons (x : ℝ) (a : List ℝ) : sumSq (x :: a) = x ^ 2 + sumSq a := by
  simp [sumSq]

/-- Cauchy–Schwarz for the truncating list dot product. -/
lemma dot_sq_le (a : List ℝ) : ∀ b : List ℝ, (dot a b) ^ 2 ≤ sumSq a * sumSq b := by
  induction a with
  | nil =>
    intro b
    simp [dot, sumSq]
  | cons x a ih =>
    intro b
    cases b with
    | nil =>
      simp [dot, sumSq]
    | cons y b =>
      have hd := ih b
      have hA : 0 ≤ sumSq a := sumSq_nonneg a
      have hB : 0 ≤ sumSq b := sumSq_nonneg b
      have hdot : dot (x :: a) (y :: b) = x * y + dot a b := by
        simp [dot]
      rw [hdot, sumSq_cons, sumSq_cons]
      rcases eq_or_lt_of_le hA with hA0 | hApos
      · have h1 : (dot a b) ^ 2 ≤ 0 := by nlinarith
        have hd0 : dot a b = 0 := by
          have h2 : (dot a b) ^ 2 = 0 := le_antisymm h1 (sq_nonneg _)
          exact pow_eq_zero_iff (two_ne_zero) |>.mp h2
        rw [hd0, ← hA0]
        nlinarith [sq_nonneg x, hB]
      · nlinarith [sq_nonneg (x * dot a b - y * sumSq a),
          mul_nonneg (sq_nonneg x) (sub_nonneg.mpr hd),
          mul_nonneg hApos.le (sub_nonneg.mpr hd), hd]

lemma dot_self_eq_sumSq (a : List ℝ) : dot a a = sumSq a := by
  induction a with
  | nil => simp [dot, sumSq]
  | cons x a ih =>
    have : dot (x :: a) (x :: a) = x * x + dot a a := by simp [dot]
    rw [this, ih, sumSq_cons]
    ring

lemma sq_le_sumSq_of_mem {x : ℝ} {a : List ℝ} (hx : x ∈ a) : x ^ 2 ≤ sumSq a := by
  induction a with
  | nil => simp at hx
  | cons y a ih =>
    rw [sumSq_cons]
    rcases List.mem_cons.mp hx with h | h
    · subst h
      nlinarith [sumSq_nonneg a]
    · nlinarith [ih h, sq_nonneg y]

lemma sumSq_replicate_zero (n : Nat) : sumSq (List.replicate n (0:ℝ)) = 0 := by
  induction n with
  | zero => simp [sumSq]
  | succ n ih => rw [List.replicate_succ, sumSq_cons, ih]; ring

lemma abs_dot_le (a b : List ℝ) : |dot a b| ≤ vnorm a * vnorm b := by
  have h := dot_sq_le a b
  have := Real.sqrt_le_sqrt h
  rw [Real.sqrt_sq_eq_abs] at this
  calc |dot a b| ≤ Real.sqrt (sumSq a * sumSq b) := this
    _ = vnorm a * vnorm b := Real.sqrt_mul (sumSq_nonneg a) _

/-- C9: `cosine_similarity` matches the standard cosine formula when both
norms are non-zero, returns `0` whenever either vector has zero magnitude,
always lies in `[-1, 1]`, equals `1` on any non-zero vector paired with
itself, and equals `0` against the zero vector. -/
theorem cosine_similarity_spec (a b : List ℝ) (hab : a.length = b.length) :
    (vnorm a ≠ 0 → vnorm b ≠ 0 →
      cosine_similarity a b = dot a b / (vnorm a * vnorm b)) ∧
    (vnorm a = 0 ∨ vnorm b = 0 → cosine_similarity a b = 0) ∧
    (-1 ≤ cosine_similarity a b ∧ cosine_similarity a b ≤ 1) ∧
    ((∃ x ∈ a, x ≠ 0) → cosine_similarity a a = 1) ∧
    cosine_similarity a (List.replicate a.length (0:ℝ)) = 0 := by
  have hna : 0 ≤ vnorm a := Real.sqrt_nonneg _
  have hnb : 0 ≤ vnorm b := Real.sqrt_nonneg _
  refine ⟨?_, ?_, ?_, ?_, ?_⟩
  · intro h1 h2
    rw [cosine_similarity, if_neg (by push_neg; exact ⟨h1, h2⟩)]
  · intro h
    rw [cosine_similarity, if_pos h]
  · by_cases h : vnorm a = 0 ∨ vnorm b = 0
    · rw [cosine_similarity, if_pos h]; norm_num
    · push_neg at h
      rw [cosine_similarity, if_neg (by push_neg; exact h)]
      have hpos : 0 < vnorm a * vnorm b :=
        mul_pos (lt_of_le_of_ne hna (Ne.symm h.1)) (lt_of_le_of_ne hnb (Ne.symm h.2))
      have habs := abs_dot_le a b
      constructor
      · rw [le_div_iff₀ hpos]
        nlinarith [(abs_le.mp habs).1]
      · rw [div_le_one hpos]
        exact (abs_le.mp habs).2
  · rintro ⟨x, hx, hx0⟩
    have hpos : 0 < sumSq a := by
      have := sq_le_sumSq_of_mem hx
      nlinarith [sq_nonneg x, pow_ne_zero 2 hx0, sq_abs x, abs_pos.mpr hx0]
    have hv : vnorm a ≠ 0 := by
      rw [vnorm]
      positivity
    rw [cosine_similarity, if_neg (by push_neg; exact ⟨hv, hv⟩)]
    rw [dot_self_eq_sumSq, vnorm, ← Real.sqrt_mul (sumSq_nonneg a),
      Real.sqrt_mul_self (sumSq_nonneg a)]
    exact div_self (ne_of_gt hpos)
  · have hz : vnorm (List.replicate a.length (0:ℝ)) = 0 := by
      rw [vnorm, sumSq_replicate_zero, Real.sqrt_zero]
    rw [cosine_similarity, if_pos (Or.inr hz)]

/-- Witness for C9 at the concrete pair `[3, 4]`, `[4, 3]`. -/
theorem cosine_similarity_spec_witness :
    (vnorm [(3:ℝ), 4] ≠ 0 → vnorm [(4:ℝ), 3] ≠ 0 →
      cosine_similarity [(3:ℝ), 4] [(4:ℝ), 3] =
        dot [(3:ℝ), 4] [(4:ℝ), 3] / (vnorm [(3:ℝ), 4] * vnorm [(4:ℝ), 3])) ∧
    (vnorm [(3:ℝ), 4] = 0 ∨ vnorm [(4:ℝ), 3] = 0 →
      cosine_similarity [(3:ℝ), 4] [(4:ℝ), 3] = 0) ∧
    (-1 ≤ cosine_similarity [(3:ℝ), 4] [(4:ℝ), 3] ∧
      cosine_similarity [(3:ℝ), 4] [(4:ℝ), 3] ≤ 1) ∧
    ((∃ x ∈ [(3:ℝ), 4], x ≠ 0) → cosine_similarity [(3:ℝ), 4] [(3:ℝ), 4] = 1) ∧
    cosine_similarity [(3:ℝ), 4] (List.replicate ([(3:ℝ), 4]).length (0:ℝ)) = 0 :=
  cosine_similarity_spec [(3:ℝ), 4] [(4:ℝ), 3] rfl

/-! ## C10 — every `smart_chunk` output chunk has length at most `chunk_size` -/

lemma pyAdj_le_len (len : Nat) (i : Int) : pyAdj len i ≤ len := by
  rw [pyAdj]
  split <;> omega

lemma pyAdj_diff_le (len : Nat) {a b : Int} (hab : a ≤ b) :
    (pyAdj len b : Int) - (pyAdj len a : Int) ≤ b - a := by
  rw [pyAdj, pyAdj]
  split_ifs <;> omega

lemma pyAdj_of_between {len : Nat} {e : Int} (h0 : 0 ≤ e) (hl : e ≤ (len : Int)) :
    (pyAdj len e : Int) = e := by
  rw [pyAdj]
  split_ifs <;> omega

lemma pySlice_length (s : List Char) (a b : Int) :
    (pySlice s a b).length = pyAdj s.length b - pyAdj s.length a := by
  rw [pySlice]
  rw [List.length_drop, List.length_take]
  have := pyAdj_le_len s.length b
  omega

lemma pyStrip_length_le (s : List Char) : (pyStrip s).length ≤ s.length := by
  rw [pyStrip]
  simp only [List.length_reverse]
  calc ((s.dropWhile isPyWS).reverse.dropWhile isPyWS).length
      ≤ (s.dropWhile isPyWS).reverse.length := (List.dropWhile_sublist _).length_le
    _ = (s.dropWhile isPyWS).length := List.length_reverse _
    _ ≤ s.length := (List.dropWhile_sublist _).length_le

lemma rfindFrom_bounds (s sub : List Char) (lo : Nat) :
    ∀ i j, rfindFrom s sub lo i = some j → lo ≤ j ∧ j ≤ i := by
  intro i
  induction i with
  | zero =>
    intro j h
    rw [rfindFrom] at h
    split at h
    · rename_i hc
      injection h with h
      omega
    · exact absurd h (by simp)
  | succ n ih =>
    intro j h
    rw [rfindFrom] at h
    split at h
    · rename_i hc
      injection h with h
      omega
    · have := ih j h
      omega

lemma pyRfind_bounds (s sub : List Char) (a b : Int)
    (h : pyRfind s sub a b ≠ -1) :
    (pyAdj s.length a : Int) ≤ pyRfind s sub a b ∧
      pyRfind s sub a b + (sub.length : Int) ≤ (pyAdj s.length b : Int) := by
  rw [pyRfind] at h ⊢
  by_cases hle : sub.length ≤ pyAdj s.length b
  · rw [if_pos hle] at h ⊢
    cases hm : rfindFrom s sub (pyAdj s.length a) (pyAdj s.length b - sub.length) with
    | none =>
      rw [hm] at h
      exact absurd rfl h
    | some j =>
      have hb := rfindFrom_bounds s sub (pyAdj s.length a) _ j hm
      show (pyAdj s.length a : Int) ≤ (j : Int) ∧
        (j : Int) + (sub.length : Int) ≤ (pyAdj s.length b : Int)
      omega
  · rw [if_neg hle] at h
    exact absurd rfl h

lemma delimSearch_bounds (text : List Char) (start end0 : Int) :
    ∀ (ds : List (List Char)) (e : Int), delimSearch text start end0 ds = some e →
      (pyAdj text.length start : Int) ≤ e ∧ e ≤ (pyAdj text.length end0 : Int) := by
  intro ds
  induction ds with
  | nil => intro e h; exact absurd h (by simp [delimSearch])
  | cons d ds ih =>
    intro e h
    rw [delimSearch] at h
    split at h
    · rename_i hne
      injection h with h
      have hb := pyRfind_bounds text d start end0 hne
      omega
    · exact ih e h

/-- The adjusted window `[adj start, adj end]` spans at most `chunk_size`
characters, whatever (possibly negative) `start` the loop has reached. -/
lemma chunkEnd_window_le (text : List Char) (chunk_size : Nat) (start : Int) :
    (pyAdj text.length (chunkEnd text chunk_size start) : Int) -
      (pyAdj text.length start : Int) ≤ (chunk_size : Int) := by
  have hse : start ≤ start + (chunk_size : Int) := by omega
  have hd0 := pyAdj_diff_le text.length hse
  rw [chunkEnd]
  by_cases h0 : start + (chunk_size : Int) < (text.length : Int)
  · rw [if_pos h0]
    cases hds : delimSearch text start (start + (chunk_size : Int)) delimiters with
    | some e =>
      have hb := delimSearch_bounds text start _ delimiters e hds
      have he0 : (0:Int) ≤ e := le_trans (by positivity) hb.1
      have hel : e ≤ (text.length : Int) := by
        have := pyAdj_le_len text.length (start + (chunk_size : Int))
        omega
      show (pyAdj text.length e : Int) - (pyAdj text.length start : Int) ≤ (chunk_size : Int)
      rw [pyAdj_of_between he0 hel]
      omega
    | none =>
      show (pyAdj text.length
          (if pyRfind text [' '] start (start + (chunk_size : Int)) ≠ -1 then
            pyRfind text [' '] start (start + (chunk_size : Int))
          else start + (chunk_size : Int)) : Int) -
          (pyAdj text.length start : Int) ≤ (chunk_size : Int)
      split_ifs with hls
      · have hb := pyRfind_bounds text [' '] start _ hls
        have he0 : (0:Int) ≤ pyRfind text [' '] start (start + (chunk_size : Int)) :=
          le_trans (by positivity) hb.1
        have hel : pyRfind text [' '] start (start + (chunk_size : Int)) ≤ (text.length : Int) := by
          have := pyAdj_le_len text.length (start + (chunk_size : Int))
          simp only [List.length_cons, List.length_nil] at hb
          omega
        rw [pyAdj_of_between he0 hel]
        omega
      · omega
  · rw [if_neg h0]
    omega

/-- Every chunk emitted by one loop iteration of `chunk_text` has length at
most `chunk_size`. -/
lemma chunkStep_emitted_le (text : List Char) (chunk_size overlap : Nat)
    (start : Int) (c : List Char)
    (h : (chunkStep text chunk_size overlap start).1 = some c) :
    c.length ≤ chunk_size := by
  rw [chunkStep] at h
  simp only at h
  split_ifs at h
  injection h with h
  subst h
  have h1 := pyStrip_length_le (pySlice text start (chunkEnd text chunk_size start))
  have h2 := pySlice_length text start (chunkEnd text chunk_size start)
  have h3 := chunkEnd_window_le text chunk_size start
  omega

lemma chunkTextLoop_all_le (text : List Char) (chunk_size overlap : Nat) :
    ∀ (fuel : Nat) (start : Int) (l : List (List Char)),
      chunkTextLoop text chunk_size overlap fuel start = some l →
      ∀ c ∈ l, c.length ≤ chunk_size := by
  intro fuel
  induction fuel with
  | zero => intro start l h; exact absurd h (by simp [chunkTextLoop])
  | succ n ih =>
    intro start l h
    rw [chunkTextLoop] at h
    split_ifs at h with hs
    · cases hrec : chunkTextLoop text chunk_size overlap n
          (chunkStep text chunk_size overlap start).2 with
      | none => rw [hrec] at h; exact absurd h (by simp)
      | some rest =>
        rw [hrec] at h
        injection h with h
        subst h
        intro c hc
        rcases List.mem_append.mp hc with hmem | hmem
        · rcases Option.mem_toList.mp hmem with hsome
          exact chunkStep_emitted_le text chunk_size overlap start c hsome
        · exact ih _ rest hrec c hmem
    · injection h with h
      subst h
      intro c hc
      simp at hc

lemma chunk_text_all_le (text : List Char) (chunk_size overlap fuel : Nat)
    (l : List (List Char)) (h : chunk_text text chunk_size overlap fuel = some l) :
    ∀ c ∈ l, c.length ≤ chunk_size := by
  rw [chunk_text] at h
  split_ifs at h with ht
  · injection h with h
    subst h
    intro c hc
    simp at hc
  · exact chunkTextLoop_all_le text chunk_size overlap fuel 0 l h

lemma smartChunkFold_inv (chunk_size overlap fuel : Nat) :
    ∀ (paras : List (List Char)) (chunks : List (List Char)) (current : List Char)
      (out : List (List Char) × List Char),
      (∀ c ∈ chunks, c.length ≤ chunk_size) → current.length ≤ chunk_size →
      smartChunkFold chunk_size overlap fuel paras (chunks, current) = some out →
      (∀ c ∈ out.1, c.length ≤ chunk_size) ∧ out.2.length ≤ chunk_size := by
  intro paras
  induction paras with
  | nil =>
    intro chunks current out hc hcur h
    rw [smartChunkFold] at h
    injection h with h
    subst h
    exact ⟨hc, hcur⟩
  | cons para rest ih =>
    intro chunks current out hc hcur h
    rw [smartChunkFold] at h
    by_cases h1 : current.length + para.length + 2 ≤ chunk_size
    · rw [if_pos h1] at h
      refine ih _ _ out hc ?_ h
      split_ifs with hne
      · simp only [List.length_append, List.length_cons, List.length_nil]
        omega
      · omega
    · rw [if_neg h1] at h
      by_cases h2 : chunk_size < para.length
      · rw [if_pos h2] at h
        cases hct : chunk_text para chunk_size overlap fuel with
        | none => rw [hct] at h; exact absurd h (by simp)
        | some sub_chunks =>
          rw [hct] at h
          have hsub := chunk_text_all_le para chunk_size overlap fuel sub_chunks hct
          refine ih _ _ out ?_ ?_ h
          · intro c hcmem
            rcases List.mem_append.mp hcmem with hm | hm
            · split_ifs at hm with hne
              · rcases List.mem_append.mp hm with hm2 | hm2
                · exact hc c hm2
                · rcases List.mem_singleton.mp hm2 with rfl
                  exact hcur
              · exact hc c hm
            · exact hsub c (List.mem_of_mem_dropLast hm)
          · cases hlast : sub_chunks.getLast? with
            | none => simp
            | some x =>
              simp only [Option.getD_some]
              exact hsub x (List.mem_of_mem_getLast? hlast)
      · rw [if_neg h2] at h
        refine ih _ _ out ?_ (by omega) h
        intro c hcmem
        split_ifs at hcmem with hne
        · rcases List.mem_append.mp hcmem with hm | hm
          · exact hc c hm
          · rcases List.mem_singleton.mp hm with rfl
            exact hcur
        · exact hc c hcmem

/-- C10: for positive `overlap < chunk_size`, every string returned by
`smart_chunk` — paragraph-packed chunks and character-window fallback chunks
alike — has length at most `chunk_size` (whenever the loop terminates, i.e.
the fueled embedding returns a result). -/
theorem smart_chunk_length_le (text : List Char) (chunk_size overlap fuel : Nat)
    (hov : 0 < overlap) (hsz : overlap < chunk_size) (cs : List (List Char))
    (h : smart_chunk text chunk_size overlap fuel = some cs) :
    ∀ c ∈ cs, c.length ≤ chunk_size := by
  rw [smart_chunk] at h
  split_ifs at h with ht
  · injection h with h
    subst h
    intro c hc
    simp at hc
  · cases hf : smartChunkFold chunk_size overlap fuel
        (((splitOnSep ['\n', '\n'] text).map pyStrip).filter (fun p => p != []))
        ([], []) with
    | none => rw [hf] at h; exact absurd h (by simp)
    | some st =>
      rw [hf] at h
      obtain ⟨chunks, current⟩ := st
      have hinv := smartChunkFold_inv chunk_size overlap fuel _ [] [] (chunks, current)
        (by intro c hc; simp at hc) (by simp) hf
      injection h with h
      subst h
      intro c hc
      split_ifs at hc with hne
      · rcases List.mem_append.mp hc with hm | hm
        · exact hinv.1 c hm
        · rcases List.mem_singleton.mp hm with rfl
          exact hinv.2
      · exact hinv.1 c hc

/-- Witness for C10 on a concrete two-paragraph text. -/
theorem smart_chunk_length_le_witness :
    smart_chunk "hello world\n\nthis is a test".toList 20 5 10 =
      some ["hello world".toList, "this is a test".toList] ∧
    ∀ c ∈ ["hello world".toList, "this is a test".toList], c.length ≤ 20 :=
  ⟨by decide,
   smart_chunk_length_le "hello world\n\nthis is a test".toList 20 5 10
     (by decide) (by decide) _ (by decide)⟩

end SupNum
